import Mathlib

/-!
Verification of the poll server in `src/server.js`.

The server keeps its whole state as a single JSON document stored under one
key in an external key-value store.  We embed the document as a Lean
structure, the store content as `Option PollDocument` (`none` = key absent),
and each HTTP handler as a pure function from the store content and the
request data to a result, the new store content, and the list of store
operations the handler performed (so that "no store access" and "nothing
was persisted" are statable).
-/

set_option maxHeartbeats 1000000

namespace Schedj

/-- One user's availability entry (`userVotes` element in `server.js`). -/
structure UserVote where
  id : String
  userName : String
  dates : List String
  deriving DecidableEq, Repr

/-- A legacy voting option (`options` element in `server.js`). -/
structure LegacyOption where
  label : String
  votes : Nat
  deriving DecidableEq, Repr

/-- The poll document after bootstrap: `userVotes` is always present.
All request handlers in `server.js` access `poll.userVotes` directly. -/
structure PollDocument where
  id : String
  title : String
  userVotes : List UserVote
  options : List LegacyOption
  deriving DecidableEq, Repr

/-- The raw stored document as the bootstrap initializer sees it: an
older-shape document may lack the `userVotes` field, hence the `Option`. -/
structure RawPoll where
  id : String
  title : String
  userVotes : Option (List UserVote)
  options : List LegacyOption
  deriving DecidableEq, Repr

/-- A store operation performed by a handler, recorded in order:
`redisClient.get(POLL_KEY)` and `redisClient.set(POLL_KEY, v)`. -/
inductive StoreOp (α : Type) where
  | getOp : StoreOp α
  | setOp : α → StoreOp α
  deriving DecidableEq, Repr

/-- Model of JavaScript `String.prototype.toLowerCase()`: lowercase every
character (via the simple mapping `Char.toLower`). -/
def lowerName (s : String) : String :=
  String.mk (s.data.map Char.toLower)

/-- The predicate `vote.userName.toLowerCase() === userName.toLowerCase()`
used by the submit and delete handlers. -/
def userMatches (userName : String) (v : UserVote) : Bool :=
  lowerName v.userName == lowerName userName

/-- Model of JavaScript `Array.prototype.findIndex`: the index of the first
element satisfying the predicate (`none` models the return value `-1`). -/
def findIndex (p : α → Bool) : List α → Option Nat
  | [] => none
  | x :: xs => if p x then some 0 else (findIndex p xs).map (· + 1)

/-- In-place update of one array slot, as `arr[i].field = v` does. -/
def modifyAt (f : α → α) : Nat → List α → List α
  | _, [] => []
  | 0, x :: xs => f x :: xs
  | n + 1, x :: xs => x :: modifyAt f n xs

/-- Model of `arr.splice(i, 1)`: remove the element at index `i`. -/
def removeAt : Nat → List α → List α
  | _, [] => []
  | 0, _ :: xs => xs
  | n + 1, x :: xs => x :: removeAt n xs

/-! ### Popular-date aggregation (GET /poll, lines 79-95 of server.js)

`dateCounts` is a JavaScript object used as a map from date string to a
counter.  String keys that are not array indices keep insertion order, so
we embed it as an association list: `dateCounts[date] = (dateCounts[date]
|| 0) + 1` updates the existing entry in place or appends a new one. -/

/-- One step of `dateCounts[date] = (dateCounts[date] || 0) + 1`. -/
def bumpDate (m : List (String × Nat)) (d : String) : List (String × Nat) :=
  if m.any (fun p => p.1 == d) then
    m.map (fun p => if p.1 == d then (p.1, p.2 + 1) else p)
  else
    m ++ [(d, 1)]

/-- The `dateCounts` object built by the two nested `forEach` loops. -/
def dateCounts (votes : List UserVote) : List (String × Nat) :=
  votes.foldl (fun m v => v.dates.foldl bumpDate m) []

/-- A derived popular-date entry `{ date, count }` (never persisted). -/
structure PopularDate where
  date : String
  count : Nat
  deriving DecidableEq, Repr

/-- Insert into a list already sorted by descending count, after every
element with a strictly larger count (so ties keep their original order,
matching the stable JavaScript `sort((a, b) => b.count - a.count)`). -/
def insertDesc (x : PopularDate) : List PopularDate → List PopularDate
  | [] => [x]
  | y :: ys => if y.count > x.count then y :: insertDesc x ys else x :: y :: ys

/-- Stable sort by descending count, the order produced by the JavaScript
`sort((a, b) => b.count - a.count)` (stable since ES2019). -/
def sortDesc : List PopularDate → List PopularDate
  | [] => []
  | x :: xs => insertDesc x (sortDesc xs)

/-- The `popularDates` array computed by GET /poll: entries of
`dateCounts`, sorted by descending count, truncated to the top 5. -/
def popularDates (votes : List UserVote) : List PopularDate :=
  (sortDesc ((dateCounts votes).map (fun p => ⟨p.1, p.2⟩))).take 5

/-- All date strings of all votes in order, occurrences included: the
sequence of values the nested `forEach` loops visit. -/
def allDates (votes : List UserVote) : List String :=
  votes.foldr (fun v acc => v.dates ++ acc) []

/-! ### GET /poll -/

/-- The JSON body GET /poll responds with: the document plus the derived
`popularDates` field, which is attached only inside
`if (pollData.userVotes && pollData.userVotes.length > 0)`. -/
structure PollResponse where
  id : String
  title : String
  userVotes : List UserVote
  options : List LegacyOption
  popularDates : Option (List PopularDate)
  deriving DecidableEq, Repr

inductive GetResult where
  | ok : PollResponse → GetResult
  | notFound : GetResult
  deriving DecidableEq, Repr

/-- The GET /poll handler (lines 69-102 of server.js). -/
def getPoll (store : Option PollDocument) :
    GetResult × Option PollDocument × List (StoreOp PollDocument) :=
  match store with
  | none => (.notFound, none, [.getOp])
  | some poll =>
      let pd : Option (List PopularDate) :=
        if 0 < poll.userVotes.length then some (popularDates poll.userVotes) else none
      (.ok ⟨poll.id, poll.title, poll.userVotes, poll.options, pd⟩, some poll, [.getOp])

/-! ### POST /poll/user-dates -/

/-- The `dates` field of a request body: absent (`undefined`), present but
not an array, or a JSON array of strings.  A non-array value is rejected
whether falsy (by `!dates`) or truthy (by `!Array.isArray(dates)`), so one
constructor covers both. -/
inductive DatesField where
  | missing : DatesField
  | nonArray : DatesField
  | arr : List String → DatesField
  deriving DecidableEq, Repr

/-- The body of a POST /poll/user-dates request; `none` models a missing
(`undefined`) `userName`. -/
structure UserDatesBody where
  userName : Option String
  dates : DatesField
  deriving DecidableEq, Repr

/-- The validation guard
`!userName || !dates || !Array.isArray(dates) || dates.length === 0`:
returns the validated fields exactly when the guard does not fire. -/
def validateBody (b : UserDatesBody) : Option (String × List String) :=
  match b.userName, b.dates with
  | some u, .arr l => if u = "" ∨ l = [] then none else some (u, l)
  | _, _ => none

inductive SubmitResult where
  | ok : SubmitResult
  | badRequest : SubmitResult
  | notFound : SubmitResult
  deriving DecidableEq, Repr

/-- The POST /poll/user-dates handler (lines 105-148 of server.js).
`newId` stands for the freshly generated `Date.now().toString()`. -/
def submitUserDates (store : Option PollDocument) (body : UserDatesBody)
    (newId : String) :
    SubmitResult × Option PollDocument × List (StoreOp PollDocument) :=
  match validateBody body with
  | none => (.badRequest, store, [])
  | some (userName, dates) =>
      match store with
      | none => (.notFound, none, [.getOp])
      | some poll =>
          match findIndex (userMatches userName) poll.userVotes with
          | some i =>
              let poll' := { poll with
                userVotes := modifyAt (fun v => { v with dates := dates }) i poll.userVotes }
              (.ok, some poll', [.getOp, .setOp poll'])
          | none =>
              let poll' := { poll with
                userVotes := poll.userVotes ++ [⟨newId, userName, dates⟩] }
              (.ok, some poll', [.getOp, .setOp poll'])

/-! ### DELETE /poll/user-dates/:userName -/

inductive DeleteResult where
  | ok : DeleteResult
  | badRequest : DeleteResult
  | notFoundPoll : DeleteResult
  | notFoundUser : DeleteResult
  deriving DecidableEq, Repr

/-- The DELETE /poll/user-dates/:userName handler (lines 151-188). -/
def deleteUserDates (store : Option PollDocument) (userName : String) :
    DeleteResult × Option PollDocument × List (StoreOp PollDocument) :=
  if userName = "" then (.badRequest, store, [])
  else
    match store with
    | none => (.notFoundPoll, none, [.getOp])
    | some poll =>
        match findIndex (userMatches userName) poll.userVotes with
        | none => (.notFoundUser, some poll, [.getOp])
        | some i =>
            let poll' := { poll with userVotes := removeAt i poll.userVotes }
            (.ok, some poll', [.getOp, .setOp poll'])

/-! ### POST /poll/date (legacy) -/

inductive AddDateResult where
  | ok : AddDateResult
  | badRequest : AddDateResult
  | notFound : AddDateResult
  deriving DecidableEq, Repr

/-- The POST /poll/date handler (lines 193-214); `none` models a missing
`newDate`, and `!newDate` also fires on the empty string. -/
def addDateHandler (store : Option PollDocument) (newDate : Option String) :
    AddDateResult × Option PollDocument × List (StoreOp PollDocument) :=
  match newDate with
  | none => (.badRequest, store, [])
  | some d =>
      if d = "" then (.badRequest, store, [])
      else
        match store with
        | none => (.notFound, none, [.getOp])
        | some poll =>
            let poll' := { poll with options := poll.options ++ [⟨d, 0⟩] }
            (.ok, some poll', [.getOp, .setOp poll'])

/-! ### POST /poll/vote (legacy) -/

/-- The comparison `optionIndex < 0`: on `undefined` (modelled by `none`)
JavaScript evaluates it to `false`. -/
def jsLtZero : Option Int → Bool
  | none => false
  | some i => decide (i < 0)

/-- The comparison `optionIndex >= poll.options.length`: on `undefined`
JavaScript evaluates it to `false`. -/
def jsGeLength (oi : Option Int) (n : Nat) : Bool :=
  match oi with
  | none => false
  | some i => decide ((n : Int) ≤ i)

inductive VoteResult where
  | ok : VoteResult
  | badRequest : VoteResult
  | notFound : VoteResult
  | serverError : VoteResult
  deriving DecidableEq, Repr

/-- The POST /poll/vote handler (lines 217-239).  When `optionIndex` is
missing, both guard comparisons are `false`, so control reaches
`poll.options[optionIndex].votes++`; indexing with `undefined` yields
`undefined`, reading `.votes` throws, and the `catch` answers 500. -/
def voteHandler (store : Option PollDocument) (optionIndex : Option Int) :
    VoteResult × Option PollDocument × List (StoreOp PollDocument) :=
  match store with
  | none => (.notFound, none, [.getOp])
  | some poll =>
      if jsLtZero optionIndex || jsGeLength optionIndex poll.options.length then
        (.badRequest, some poll, [.getOp])
      else
        match optionIndex with
        | none => (.serverError, some poll, [.getOp])
        | some i =>
            let poll' := { poll with
              options := modifyAt (fun o => { o with votes := o.votes + 1 }) i.toNat poll.options }
            (.ok, some poll', [.getOp, .setOp poll'])

/-! ### Bootstrap initializer -/

/-- The `initialData` document written by `ensurePollExists` (lines 44-54). -/
def defaultPoll : RawPoll :=
  { id := "seat-22222-3333-4444-555555555555"
    title := "Seattle Work Get-Together"
    userVotes := some []
    options := [⟨"2024-04-05", 0⟩, ⟨"2024-04-12", 0⟩, ⟨"2024-04-19", 0⟩] }

/-- The `ensurePollExists` initializer (lines 40-66 of server.js). -/
def ensurePollExists (store : Option RawPoll) :
    Option RawPoll × List (StoreOp RawPoll) :=
  match store with
  | none => (some defaultPoll, [.getOp, .setOp defaultPoll])
  | some poll =>
      match poll.userVotes with
      | none =>
          let poll' := { poll with userVotes := some [] }
          (some poll', [.getOp, .setOp poll'])
      | some _ => (some poll, [.getOp])

/-! ### Invariant -/

/-- The documented invariant: at most one `userVotes` entry per
case-insensitive `userName`. -/
def NoDupUsers (l : List UserVote) : Prop :=
  (l.map (fun v => lowerName v.userName)).Nodup

instance (l : List UserVote) : Decidable (NoDupUsers l) :=
  List.nodupDecidable _

/-- `out` keeps the invariant whenever the starting store satisfied it. -/
def PreservesInv (store out : Option PollDocument) : Prop :=
  (∀ p, store = some p → NoDupUsers p.userVotes) →
  ∀ p', out = some p' → NoDupUsers p'.userVotes

/-! ### Auxiliary definitions for the proofs -/

/-- `dateCounts[d] || 0`: the counter stored for key `d`, or 0. -/
def lookupCount (d : String) (m : List (String × Nat)) : Nat :=
  match m.find? (fun p => p.1 == d) with
  | some p => p.2
  | none => 0

/-- The keys of the association list are pairwise distinct (true of any
JavaScript object, maintained by `bumpDate`). -/
def keysNodup (m : List (String × Nat)) : Prop :=
  (m.map Prod.fst).Nodup

/-- A document where one user listed the same date twice. -/
def exDoc : PollDocument :=
  { id := "p", title := "t", userVotes := [⟨"7", "Alice", ["d", "d"]⟩], options := [] }

/-- A document whose `userVotes` list is empty. -/
def emptyVotesDoc : PollDocument :=
  { id := "p", title := "t", userVotes := [], options := [⟨"2024-04-05", 0⟩] }

/-- A small concrete document with two user entries and three options. -/
def wPoll : PollDocument :=
  { id := "p", title := "t"
    userVotes := [⟨"1", "Alice", ["2024-04-05"]⟩, ⟨"2", "Bob", ["2024-04-12"]⟩]
    options := [⟨"2024-04-05", 0⟩, ⟨"2024-04-12", 2⟩, ⟨"2024-04-19", 1⟩] }

/-- `wPoll` after a third user submits availability. -/
def wPollPlusCara : PollDocument :=
  { wPoll with userVotes := wPoll.userVotes ++ [⟨"9", "Cara", ["x"]⟩] }

/-- An older-shape stored document without the `userVotes` field. -/
def rawOld : RawPoll :=
  { id := "r", title := "old", userVotes := none, options := [⟨"x", 1⟩] }

/-! ### Helper lemmas about the list operations -/

theorem length_modifyAt (f : α → α) :
    ∀ (i : Nat) (l : List α), (modifyAt f i l).length = l.length
  | _, [] => by simp [modifyAt]
  | 0, _ :: _ => rfl
  | n + 1, x :: xs => by simp [modifyAt, length_modifyAt f n xs]

theorem getElem?_modifyAt (f : α → α) :
    ∀ (l : List α) (i j : Nat),
      (modifyAt f i l)[j]? = if j = i then (l[j]?).map f else l[j]?
  | [], i, j => by simp [modifyAt]
  | x :: xs, 0, 0 => by simp [modifyAt]
  | x :: xs, 0, j + 1 => by simp [modifyAt]
  | x :: xs, i + 1, 0 => by simp [modifyAt]
  | x :: xs, i + 1, j + 1 => by
      simp [modifyAt, getElem?_modifyAt f xs i j]

theorem map_modifyAt (f : α → α) (g : α → β) (hfg : ∀ a, g (f a) = g a) :
    ∀ (i : Nat) (l : List α), (modifyAt f i l).map g = l.map g
  | _, [] => by simp [modifyAt]
  | 0, x :: xs => by simp [modifyAt, hfg]
  | n + 1, x :: xs => by simp [modifyAt, map_modifyAt f g hfg n xs]

theorem removeAt_eq_take_append_drop :
    ∀ (i : Nat) (l : List α), removeAt i l = l.take i ++ l.drop (i + 1)
  | _, [] => by simp [removeAt]
  | 0, x :: xs => by simp [removeAt]
  | n + 1, x :: xs => by simp [removeAt, removeAt_eq_take_append_drop n xs]

theorem removeAt_sublist : ∀ (i : Nat) (l : List α), List.Sublist (removeAt i l) l
  | _, [] => by simp [removeAt]
  | 0, x :: xs => List.Sublist.cons x (List.Sublist.refl xs)
  | n + 1, x :: xs => List.Sublist.cons₂ x (removeAt_sublist n xs)

theorem findIndex_some {p : α → Bool} :
    ∀ {l : List α} {i : Nat}, findIndex p l = some i →
      ∃ v, l[i]? = some v ∧ p v = true := by
  intro l
  induction l with
  | nil => intro i h; simp [findIndex] at h
  | cons x xs ih =>
      intro i h
      by_cases hp : p x
      · simp [findIndex, hp] at h
        exact h ▸ ⟨x, by simp, hp⟩
      · simp [findIndex, hp] at h
        obtain ⟨i', hi', rfl⟩ := h
        obtain ⟨v, hv, hpv⟩ := ih hi'
        exact ⟨v, by simpa using hv, hpv⟩

theorem findIndex_none {p : α → Bool} :
    ∀ {l : List α}, findIndex p l = none → ∀ x ∈ l, p x = false := by
  intro l
  induction l with
  | nil => intro _ x hx; simp at hx
  | cons y ys ih =>
      intro h x hx
      by_cases hp : p y
      · simp [findIndex, hp] at h
      · rcases List.mem_cons.mp hx with rfl | hx'
        · exact Bool.not_eq_true _ ▸ by simpa using hp
        · simp [findIndex, hp] at h
          exact ih h x hx'

/-! ### Lemmas about the `dateCounts` aggregation -/

theorem find?_fst_map (f : String × Nat → String × Nat)
    (hf : ∀ p, (f p).1 = p.1) (d : String) :
    ∀ m : List (String × Nat),
      (m.map f).find? (fun p => p.1 == d) = (m.find? (fun p => p.1 == d)).map f := by
  intro m
  induction m with
  | nil => rfl
  | cons p m ih =>
      by_cases hd : (p.1 == d) = true
      · simp [List.find?, hf, hd]
      · simp only [Bool.not_eq_true] at hd
        simp [List.find?, hf, hd, ih]

theorem lookupCount_bumpDate (a d : String) (m : List (String × Nat)) :
    lookupCount d (bumpDate m a) = lookupCount d m + (if a = d then 1 else 0) := by
  by_cases hany : (m.any fun p => p.1 == a) = true
  · have hf : ∀ p : String × Nat, ((if p.1 == a then (p.1, p.2 + 1) else p) : String × Nat).1 = p.1 := by
      intro p
      by_cases h : (p.1 == a) = true <;> simp [h]
    rw [bumpDate, if_pos hany, lookupCount,
      find?_fst_map (fun p => if p.1 == a then (p.1, p.2 + 1) else p) hf d m]
    cases hfind : m.find? (fun p => p.1 == d) with
    | none =>
        have hnone : lookupCount d m = 0 := by simp [lookupCount, hfind]
        rw [hnone]
        have hne : a ≠ d := by
          intro rfl_ad
          subst rfl_ad
          obtain ⟨p, hp, hpd⟩ := List.any_eq_true.mp hany
          exact (List.find?_eq_none.mp hfind p hp) hpd
        simp [hne]
    | some p =>
        have hpd : p.1 = d := by
          have := List.find?_some hfind
          simpa using this
        have hsome : lookupCount d m = p.2 := by simp [lookupCount, hfind]
        rw [hsome]
        by_cases had : a = d
        · subst had
          simp [hpd]
        · have hpa : p.1 ≠ a := by
            rw [hpd]
            exact fun h => had h.symm
          simp [hpa, had]
  · simp only [Bool.not_eq_true] at hany
    rw [bumpDate, if_neg (by simp [hany]), lookupCount, List.find?_append]
    cases hfind : m.find? (fun p => p.1 == d) with
    | some p =>
        have hsome : lookupCount d m = p.2 := by simp [lookupCount, hfind]
        have hpd : p.1 = d := by
          have := List.find?_some hfind
          simpa using this
        have hne : a ≠ d := by
          intro rfl_ad
          subst rfl_ad
          have := List.any_eq_false.mp hany p (List.mem_of_find?_eq_some hfind)
          rw [hpd] at this
          simp at this
        simp [Option.or, hsome, hne]
    | none =>
        have hnone : lookupCount d m = 0 := by simp [lookupCount, hfind]
        by_cases had : a = d
        · subst had
          simp [Option.or, List.find?, hnone]
        · have : (a == d) = false := beq_eq_false_iff_ne.mpr had
          simp [Option.or, List.find?, this, hnone, had]

theorem lookupCount_foldl (d : String) :
    ∀ (L : List String) (m : List (String × Nat)),
      lookupCount d (L.foldl bumpDate m) = lookupCount d m + L.count d := by
  intro L
  induction L with
  | nil => intro m; simp
  | cons a L ih =>
      intro m
      rw [List.foldl_cons, ih, lookupCount_bumpDate, List.count_cons]
      by_cases had : a = d
      · simp [had]
        omega
      · have : (a == d) = false := beq_eq_false_iff_ne.mpr had
        simp [had, this]

theorem keysNodup_bumpDate (a : String) (m : List (String × Nat))
    (h : keysNodup m) : keysNodup (bumpDate m a) := by
  by_cases hany : (m.any fun p => p.1 == a) = true
  · rw [bumpDate, if_pos hany, keysNodup, List.map_map]
    have hcomp :
        (Prod.fst ∘ fun p : String × Nat => if p.1 == a then (p.1, p.2 + 1) else p) =
          Prod.fst := by
      funext p
      by_cases hp : (p.1 == a) = true <;> simp [Function.comp, hp]
    rw [hcomp]
    exact h
  · simp only [Bool.not_eq_true] at hany
    rw [bumpDate, if_neg (by simp [hany]), keysNodup, List.map_append]
    rw [List.nodup_append]
    refine ⟨h, by simp, ?_⟩
    intro x hx
    obtain ⟨p, hp, rfl⟩ := List.mem_map.mp hx
    have := List.any_eq_false.mp hany p hp
    simp only [List.map_cons, List.map_nil, List.mem_singleton]
    intro hxa
    rw [hxa] at this
    simp at this

theorem keysNodup_foldl :
    ∀ (L : List String) (m : List (String × Nat)),
      keysNodup m → keysNodup (L.foldl bumpDate m) := by
  intro L
  induction L with
  | nil => intro m h; exact h
  | cons a L ih =>
      intro m h
      rw [List.foldl_cons]
      exact ih _ (keysNodup_bumpDate a m h)

theorem lookupCount_of_mem {d : String} {c : Nat} :
    ∀ {m : List (String × Nat)}, keysNodup m → (d, c) ∈ m → lookupCount d m = c := by
  intro m
  induction m with
  | nil => intro _ h; simp at h
  | cons p m ih =>
      intro hnd hmem
      rcases List.mem_cons.mp hmem with heq | hmem'
      · rw [← heq]
        simp [lookupCount, List.find?]
      · have hkey : d ∈ m.map Prod.fst := List.mem_map.mpr ⟨(d, c), hmem', rfl⟩
        have hcons := List.nodup_cons.mp hnd
        have hne : p.1 ≠ d := by
          intro hpd
          exact hcons.1 (hpd ▸ hkey)
        have hbeq : (p.1 == d) = false := beq_eq_false_iff_ne.mpr hne
        have : lookupCount d (p :: m) = lookupCount d m := by
          simp [lookupCount, List.find?, hbeq]
        rw [this]
        exact ih hcons.2 hmem'

theorem dateCounts_eq_foldl :
    ∀ (votes : List UserVote) (m : List (String × Nat)),
      votes.foldl (fun m v => v.dates.foldl bumpDate m) m =
        (allDates votes).foldl bumpDate m := by
  intro votes
  induction votes with
  | nil => intro m; rfl
  | cons v vs ih =>
      intro m
      have : allDates (v :: vs) = v.dates ++ allDates vs := rfl
      rw [this, List.foldl_append, List.foldl_cons, ih]

/-- Each entry of the `dateCounts` object counts the occurrences of its
date across all submitted date lists, duplicates within one entry
included. -/
theorem mem_dateCounts_count {d : String} {c : Nat} (votes : List UserVote)
    (h : (d, c) ∈ dateCounts votes) : c = (allDates votes).count d := by
  have h1 : dateCounts votes = (allDates votes).foldl bumpDate [] := by
    rw [dateCounts, dateCounts_eq_foldl]
  have h2 : keysNodup (dateCounts votes) := by
    rw [h1]
    exact keysNodup_foldl _ _ (by simp [keysNodup])
  have h3 := lookupCount_of_mem h2 h
  rw [h1, lookupCount_foldl] at h3
  simpa [lookupCount] using h3.symm

/-! ### Lemmas about the stable descending sort -/

theorem mem_insertDesc {z x : PopularDate} :
    ∀ {l : List PopularDate}, z ∈ insertDesc x l → z = x ∨ z ∈ l := by
  intro l
  induction l with
  | nil => intro h; simpa [insertDesc] using h
  | cons y ys ih =>
      intro h
      rw [insertDesc] at h
      by_cases hc : y.count > x.count
      · rw [if_pos hc] at h
        rcases List.mem_cons.mp h with rfl | h'
        · exact Or.inr (List.mem_cons_self _ _)
        · rcases ih h' with h'' | h''
          · exact Or.inl h''
          · exact Or.inr (List.mem_cons_of_mem _ h'')
      · rw [if_neg hc] at h
        rcases List.mem_cons.mp h with rfl | h'
        · exact Or.inl rfl
        · exact Or.inr h'

theorem pairwise_insertDesc {x : PopularDate} :
    ∀ {l : List PopularDate},
      l.Pairwise (fun a b => b.count ≤ a.count) →
      (insertDesc x l).Pairwise (fun a b => b.count ≤ a.count) := by
  intro l
  induction l with
  | nil => intro _; simp [insertDesc]
  | cons y ys ih =>
      intro hp
      obtain ⟨hy, hys⟩ := List.pairwise_cons.mp hp
      rw [insertDesc]
      by_cases hc : y.count > x.count
      · rw [if_pos hc]
        refine List.pairwise_cons.mpr ⟨?_, ih hys⟩
        intro z hz
        rcases mem_insertDesc hz with rfl | hz'
        · exact Nat.le_of_lt hc
        · exact hy z hz'
      · rw [if_neg hc]
        have hxy : y.count ≤ x.count := Nat.le_of_not_lt hc
        refine List.pairwise_cons.mpr ⟨?_, hp⟩
        intro z hz
        rcases List.mem_cons.mp hz with rfl | hz'
        · exact hxy
        · exact Nat.le_trans (hy z hz') hxy

theorem mem_sortDesc {z : PopularDate} :
    ∀ {l : List PopularDate}, z ∈ sortDesc l → z ∈ l := by
  intro l
  induction l with
  | nil => intro h; simp [sortDesc] at h
  | cons x xs ih =>
      intro h
      rcases mem_insertDesc h with rfl | h'
      · exact List.mem_cons_self _ _
      · exact List.mem_cons_of_mem _ (ih h')

theorem pairwise_sortDesc :
    ∀ (l : List PopularDate), (sortDesc l).Pairwise (fun a b => b.count ≤ a.count) := by
  intro l
  induction l with
  | nil => simp [sortDesc]
  | cons x xs ih => exact pairwise_insertDesc ih

/-! ### Claim theorems -/

/-- C1 (counterexample): the claim says each `popularDates` entry counts
the number of `UserVote` entries whose `dates` contain the date, "not the
number of occurrences".  On the document `exDoc`, whose single user listed
`"d"` twice, GET /poll reports count 2 for `"d"` while only 1 user entry
contains it, so the claim as stated is false. -/
theorem C1_counterexample :
    (getPoll (some exDoc)).1 =
      GetResult.ok ⟨"p", "t", [⟨"7", "Alice", ["d", "d"]⟩], [], some [⟨"d", 2⟩]⟩ ∧
    exDoc.userVotes.countP (fun v => v.dates.contains "d") = 1 ∧
    (2 : Nat) ≠ 1 := by
  refine ⟨by decide, by decide, by decide⟩

/-- C1 (amended): every entry of the `popularDates` list computed by
GET /poll has a count equal to the number of OCCURRENCES of its date
across all `userVotes` date lists (duplicates inside one entry counted
separately); the list has at most 5 entries and is sorted by descending
count. -/
theorem C1_popularDates_top5_sorted_occurrences (votes : List UserVote) :
    (∀ pd ∈ popularDates votes, pd.count = (allDates votes).count pd.date) ∧
    (popularDates votes).length ≤ 5 ∧
    (popularDates votes).Pairwise (fun a b => b.count ≤ a.count) := by
  refine ⟨?_, ?_, ?_⟩
  · intro pd hpd
    have h1 : pd ∈ sortDesc ((dateCounts votes).map fun p => ⟨p.1, p.2⟩) :=
      (List.take_sublist 5 _).subset hpd
    obtain ⟨p, hp, hpe⟩ := List.mem_map.mp (mem_sortDesc h1)
    have hmem : (pd.date, pd.count) ∈ dateCounts votes := by
      cases pd
      cases p
      cases hpe
      exact hp
    exact mem_dateCounts_count votes hmem
  · simp only [popularDates, List.length_take]
    exact Nat.min_le_left _ _
  · exact List.Pairwise.sublist (List.take_sublist 5 _) (pairwise_sortDesc _)

/-- C1 witness: the amended theorem evaluated on the concrete document
`exDoc` (count 2 for date `"d"`, which occurs twice). -/
theorem C1_popularDates_top5_sorted_occurrences_witness :
    (⟨"d", 2⟩ : PopularDate) ∈ popularDates exDoc.userVotes ∧
    (⟨"d", 2⟩ : PopularDate).count = (allDates exDoc.userVotes).count "d" ∧
    (popularDates exDoc.userVotes).length ≤ 5 :=
  ⟨by decide,
   (C1_popularDates_top5_sorted_occurrences exDoc.userVotes).1 ⟨"d", 2⟩ (by decide),
   (C1_popularDates_top5_sorted_occurrences exDoc.userVotes).2.1⟩

/-- C3 (counterexample): the claim says the derived `popularDates` field is
attached to the GET /poll response "including when userVotes is empty".
On `emptyVotesDoc` (empty `userVotes`) the guard
`pollData.userVotes && pollData.userVotes.length > 0` is false and the
response carries no `popularDates` field at all. -/
theorem C3_counterexample :
    (getPoll (some emptyVotesDoc)).1 =
      GetResult.ok ⟨"p", "t", [], [⟨"2024-04-05", 0⟩], none⟩ := by
  decide

/-- C3 (amended): GET /poll responds with the full stored document; the
derived `popularDates` field is attached exactly when `userVotes` is
nonempty; the derived field is never persisted (the stored value is
unchanged and the handler performs no set operation). -/
theorem C3_get_full_document_derived_not_persisted (doc : PollDocument) :
    (getPoll (some doc)).1 =
      GetResult.ok ⟨doc.id, doc.title, doc.userVotes, doc.options,
        if 0 < doc.userVotes.length then some (popularDates doc.userVotes) else none⟩ ∧
    (getPoll (some doc)).2.1 = some doc ∧
    (getPoll (some doc)).2.2 = [StoreOp.getOp] :=
  ⟨rfl, rfl, rfl⟩

/-- C9: GET /poll never mutates the stored state: for every store content
(present or absent, i.e. success and failure paths alike) the stored value
after the handler runs equals the value before, and the only store
operation performed is a read. -/
theorem C9_get_never_mutates (store : Option PollDocument) :
    (getPoll store).2.1 = store ∧ (getPoll store).2.2 = [StoreOp.getOp] := by
  cases store <;> exact ⟨rfl, rfl⟩

/-- C10: when the POST /poll/vote body lacks `optionIndex`, both guard
comparisons (`optionIndex < 0`, `optionIndex >= poll.options.length`)
evaluate to false, so the guard does not reject the request; the handler
then indexes `options` with an invalid index and the request fails with a
server error (500), not a client error, leaving the store unchanged. -/
theorem C10_vote_missing_index_server_error (poll : PollDocument) :
    jsLtZero none = false ∧
    jsGeLength none poll.options.length = false ∧
    voteHandler (some poll) none =
      (VoteResult.serverError, some poll, [StoreOp.getOp]) := by
  refine ⟨rfl, rfl, ?_⟩
  simp [voteHandler, jsLtZero, jsGeLength]

/-- C2: on a valid submission (non-empty name, non-empty dates array) to an
existing document the handler answers success; if an entry matches the name
case-insensitively, that entry's dates are fully replaced (the stored
`userName` and `id` are kept, every other entry and the length are
unchanged, so a case-differing resubmission leaves one entry with the
originally stored name and the latest dates); otherwise a new entry with
the freshly generated identifier is appended. -/
theorem C2_submit_replace_or_append (poll : PollDocument) (u : String)
    (ds : List String) (nid : String) (hu : u ≠ "") (hd : ds ≠ []) :
    (submitUserDates (some poll) ⟨some u, .arr ds⟩ nid).1 = SubmitResult.ok ∧
    (∀ i, findIndex (userMatches u) poll.userVotes = some i →
      ∃ poll', (submitUserDates (some poll) ⟨some u, .arr ds⟩ nid).2.1 = some poll' ∧
        poll'.id = poll.id ∧ poll'.title = poll.title ∧
        poll'.options = poll.options ∧
        poll'.userVotes.length = poll.userVotes.length ∧
        (poll'.userVotes.map fun v => v.userName) =
          (poll.userVotes.map fun v => v.userName) ∧
        (∃ v, poll.userVotes[i]? = some v ∧ userMatches u v = true ∧
          poll'.userVotes[i]? = some ⟨v.id, v.userName, ds⟩) ∧
        (∀ j, j ≠ i → poll'.userVotes[j]? = poll.userVotes[j]?)) ∧
    (findIndex (userMatches u) poll.userVotes = none →
      (submitUserDates (some poll) ⟨some u, .arr ds⟩ nid).2.1 =
        some { poll with userVotes := poll.userVotes ++ [⟨nid, u, ds⟩] }) := by
  have hv : validateBody ⟨some u, .arr ds⟩ = some (u, ds) := by
    simp [validateBody, hu, hd]
  refine ⟨?_, ?_, ?_⟩
  · cases hfi : findIndex (userMatches u) poll.userVotes <;>
      simp [submitUserDates, hv, hfi]
  · intro i hfi
    refine ⟨{ poll with
        userVotes := modifyAt (fun v => { v with dates := ds }) i poll.userVotes },
      by simp [submitUserDates, hv, hfi], rfl, rfl, rfl, ?_, ?_, ?_, ?_⟩
    · exact length_modifyAt _ i _
    · exact map_modifyAt (fun v => { v with dates := ds })
        (fun v => v.userName) (fun v => rfl) i poll.userVotes
    · obtain ⟨v, hv', hpv⟩ := findIndex_some hfi
      refine ⟨v, hv', hpv, ?_⟩
      show (modifyAt (fun v => { v with dates := ds }) i poll.userVotes)[i]? = _
      rw [getElem?_modifyAt, if_pos rfl, hv']
      rfl
    · intro j hj
      show (modifyAt (fun v => { v with dates := ds }) i poll.userVotes)[j]? = _
      rw [getElem?_modifyAt, if_neg hj]
  · intro hfi
    simp [submitUserDates, hv, hfi]

/-- C2 witness: resubmitting as "alice" replaces Alice's dates in place,
keeping the stored name "Alice" and the list length. -/
theorem C2_submit_replace_or_append_witness :
    (submitUserDates (some wPoll) ⟨some "alice", DatesField.arr ["2024-04-19"]⟩ "9").1 =
      SubmitResult.ok ∧
    (submitUserDates (some wPoll) ⟨some "alice", DatesField.arr ["2024-04-19"]⟩ "9").2.1 =
      some { wPoll with
        userVotes := [⟨"1", "Alice", ["2024-04-19"]⟩, ⟨"2", "Bob", ["2024-04-12"]⟩] } :=
  ⟨(C2_submit_replace_or_append wPoll "alice" ["2024-04-19"] "9"
      (by decide) (by decide)).1,
   by decide⟩

/-- C8: every request body failing validation (missing userName, empty
userName, missing dates, non-array dates, or empty dates array) is
rejected with a client error with no store access attempted (empty
operation trace) and the stored state unchanged. -/
theorem C8_invalid_body_rejected_before_store (store : Option PollDocument)
    (body : UserDatesBody) (nid : String)
    (h : body.userName = none ∨ body.userName = some "" ∨
         body.dates = DatesField.missing ∨ body.dates = DatesField.nonArray ∨
         body.dates = DatesField.arr []) :
    submitUserDates store body nid = (SubmitResult.badRequest, store, []) := by
  have hv : validateBody body = none := by
    obtain ⟨un, df⟩ := body
    simp only [UserDatesBody.mk.injEq] at h
    rcases h with h | h | h | h | h
    · rw [show un = none from h]
      cases df <;> rfl
    · rw [show un = some "" from h]
      cases df <;> simp [validateBody]
    · rw [show df = DatesField.missing from h]
      cases un <;> rfl
    · rw [show df = DatesField.nonArray from h]
      cases un <;> rfl
    · rw [show df = DatesField.arr [] from h]
      cases un <;> simp [validateBody]
  simp [submitUserDates, hv]

/-- C8 witness: an empty dates array is rejected before any store access. -/
theorem C8_invalid_body_rejected_before_store_witness :
    submitUserDates (some wPoll) ⟨some "Alice", DatesField.arr []⟩ "9" =
      (SubmitResult.badRequest, some wPoll, []) :=
  C8_invalid_body_rejected_before_store (some wPoll)
    ⟨some "Alice", DatesField.arr []⟩ "9"
    (Or.inr (Or.inr (Or.inr (Or.inr rfl))))

/-- C4: every mutating handler (submit user-dates, delete user-dates,
legacy add date, legacy vote) preserves the invariant that `userVotes`
holds at most one entry per case-insensitive `userName`. -/
theorem C4_mutations_preserve_unique_users (store : Option PollDocument)
    (body : UserDatesBody) (nid : String) (uname : String)
    (nd : Option String) (oi : Option Int) :
    PreservesInv store (submitUserDates store body nid).2.1 ∧
    PreservesInv store (deleteUserDates store uname).2.1 ∧
    PreservesInv store (addDateHandler store nd).2.1 ∧
    PreservesInv store (voteHandler store oi).2.1 := by
  refine ⟨?_, ?_, ?_, ?_⟩
  · intro hinv p' hp'
    cases hvb : validateBody body with
    | none =>
        simp [submitUserDates, hvb] at hp'
        exact hinv p' hp'
    | some ud =>
        obtain ⟨u, ds⟩ := ud
        cases store with
        | none => simp [submitUserDates, hvb] at hp'
        | some poll =>
            have hp := hinv poll rfl
            cases hfi : findIndex (userMatches u) poll.userVotes with
            | some i =>
                simp [submitUserDates, hvb, hfi] at hp'
                rw [← hp']
                show ((modifyAt (fun v => { v with dates := ds }) i
                  poll.userVotes).map fun v => lowerName v.userName).Nodup
                rw [map_modifyAt (fun v => { v with dates := ds })
                  (fun v => lowerName v.userName) (fun v => rfl) i poll.userVotes]
                exact hp
            | none =>
                simp [submitUserDates, hvb, hfi] at hp'
                rw [← hp']
                show (((poll.userVotes ++ [(⟨nid, u, ds⟩ : UserVote)]).map
                  fun v => lowerName v.userName)).Nodup
                rw [List.map_append]
                rw [List.nodup_append]
                refine ⟨hp, by simp, ?_⟩
                intro x hx
                obtain ⟨v, hvmem, rfl⟩ := List.mem_map.mp hx
                have hfalse := findIndex_none hfi v hvmem
                simp only [List.map_cons, List.map_nil, List.mem_singleton]
                intro hcontra
                rw [userMatches, beq_eq_false_iff_ne] at hfalse
                exact hfalse hcontra
  · intro hinv p' hp'
    by_cases hn : uname = ""
    · simp [deleteUserDates, hn] at hp'
      exact hinv p' hp'
    · cases store with
      | none => simp [deleteUserDates, hn] at hp'
      | some poll =>
          cases hfi : findIndex (userMatches uname) poll.userVotes with
          | none =>
              simp [deleteUserDates, hn, hfi] at hp'
              rw [← hp']
              exact hinv poll rfl
          | some i =>
              simp [deleteUserDates, hn, hfi] at hp'
              rw [← hp']
              show ((removeAt i poll.userVotes).map fun v => lowerName v.userName).Nodup
              exact List.Nodup.sublist
                ((removeAt_sublist i poll.userVotes).map fun v => lowerName v.userName)
                (hinv poll rfl)
  · intro hinv p' hp'
    cases nd with
    | none =>
        simp [addDateHandler] at hp'
        exact hinv p' hp'
    | some d =>
        by_cases hd : d = ""
        · simp [addDateHandler, hd] at hp'
          exact hinv p' hp'
        · cases store with
          | none => simp [addDateHandler, hd] at hp'
          | some poll =>
              simp [addDateHandler, hd] at hp'
              rw [← hp']
              exact hinv poll rfl
  · intro hinv p' hp'
    cases store with
    | none => simp [voteHandler] at hp'
    | some poll =>
        by_cases hg : (jsLtZero oi || jsGeLength oi poll.options.length) = true
        · simp [voteHandler, hg] at hp'
          rw [← hp']
          exact hinv poll rfl
        · cases oi with
          | none =>
              simp [voteHandler, hg] at hp'
              rw [← hp']
              exact hinv poll rfl
          | some i =>
              simp [voteHandler, hg] at hp'
              rw [← hp']
              exact hinv poll rfl

/-- C4 witness: appending a new user to `wPoll` keeps the per-user
uniqueness invariant. -/
theorem C4_mutations_preserve_unique_users_witness :
    NoDupUsers wPollPlusCara.userVotes :=
  (C4_mutations_preserve_unique_users (some wPoll)
      ⟨some "Cara", DatesField.arr ["x"]⟩ "9" "Bob" none none).1
    (fun p hp => by cases hp; decide) wPollPlusCara (by decide)

/-- C5: the bootstrap initializer run on an empty store writes the default
document (fixed id, fixed title, empty `userVotes`, exactly three seed
options with zero votes); on a present document lacking `userVotes` it
adds an empty sequence and persists it, leaving all other fields
unchanged; on a document that already has `userVotes` it writes nothing. -/
theorem C5_bootstrap_initializer (raw rawOk : RawPoll) (l : List UserVote)
    (h1 : raw.userVotes = none) (h2 : rawOk.userVotes = some l) :
    ensurePollExists none = (some defaultPoll, [.getOp, .setOp defaultPoll]) ∧
    defaultPoll.id = "seat-22222-3333-4444-555555555555" ∧
    defaultPoll.title = "Seattle Work Get-Together" ∧
    defaultPoll.userVotes = some [] ∧
    defaultPoll.options.length = 3 ∧
    (∀ o ∈ defaultPoll.options, o.votes = 0) ∧
    ensurePollExists (some raw) =
      (some { raw with userVotes := some [] },
       [.getOp, .setOp { raw with userVotes := some [] }]) ∧
    ensurePollExists (some rawOk) = (some rawOk, [.getOp]) := by
  refine ⟨rfl, rfl, rfl, rfl, rfl, by decide, ?_, ?_⟩
  · simp [ensurePollExists, h1]
  · simp [ensurePollExists, h2]

/-- C5 witness: the initializer on the legacy document `rawOld` and on the
already-normalized `defaultPoll`. -/
theorem C5_bootstrap_initializer_witness :
    ensurePollExists (some rawOld) =
      (some { rawOld with userVotes := some [] },
       [StoreOp.getOp, StoreOp.setOp { rawOld with userVotes := some [] }]) ∧
    ensurePollExists (some defaultPoll) = (some defaultPoll, [StoreOp.getOp]) :=
  ⟨(C5_bootstrap_initializer rawOld defaultPoll [] rfl rfl).2.2.2.2.2.2.1,
   (C5_bootstrap_initializer rawOld defaultPoll [] rfl rfl).2.2.2.2.2.2.2⟩

/-- C6: POST /poll/vote with an in-bounds index increments exactly that
option's vote counter by one (same label, every other option, the length,
and all non-option fields unchanged) and persists; an out-of-bounds index
is rejected with a client error and the stored state is unchanged. -/
theorem C6_vote_in_bounds_out_of_bounds (poll : PollDocument) (i : Int) :
    (0 ≤ i → i < (poll.options.length : Int) →
      ∃ poll', voteHandler (some poll) (some i) =
          (VoteResult.ok, some poll', [StoreOp.getOp, StoreOp.setOp poll']) ∧
        poll'.id = poll.id ∧ poll'.title = poll.title ∧
        poll'.userVotes = poll.userVotes ∧
        poll'.options.length = poll.options.length ∧
        (∃ o, poll.options[i.toNat]? = some o ∧
          poll'.options[i.toNat]? = some ⟨o.label, o.votes + 1⟩) ∧
        (∀ j, j ≠ i.toNat → poll'.options[j]? = poll.options[j]?)) ∧
    ((i < 0 ∨ (poll.options.length : Int) ≤ i) →
      voteHandler (some poll) (some i) =
        (VoteResult.badRequest, some poll, [StoreOp.getOp])) := by
  constructor
  · intro h0 hlen
    have hguard : (jsLtZero (some i) || jsGeLength (some i) poll.options.length) = false := by
      simp only [jsLtZero, jsGeLength, Bool.or_eq_false_iff, decide_eq_false_iff_not]
      omega
    have hlt : i.toNat < poll.options.length := by omega
    refine ⟨{ poll with
        options := modifyAt (fun o => { o with votes := o.votes + 1 }) i.toNat poll.options },
      by simp [voteHandler, hguard], rfl, rfl, rfl, ?_, ?_, ?_⟩
    · exact length_modifyAt _ _ _
    · refine ⟨poll.options[i.toNat], List.getElem?_eq_getElem hlt, ?_⟩
      show (modifyAt (fun o => { o with votes := o.votes + 1 }) i.toNat poll.options)[i.toNat]? = _
      rw [getElem?_modifyAt, if_pos rfl, List.getElem?_eq_getElem hlt]
      rfl
    · intro j hj
      show (modifyAt (fun o => { o with votes := o.votes + 1 }) i.toNat poll.options)[j]? = _
      rw [getElem?_modifyAt, if_neg hj]
  · intro h
    have hguard : (jsLtZero (some i) || jsGeLength (some i) poll.options.length) = true := by
      simp only [jsLtZero, jsGeLength, Bool.or_eq_true, decide_eq_true_eq]
      omega
    simp [voteHandler, hguard]

/-- C6 witness: voting index 1 succeeds on the three-option `wPoll`;
index 99 is rejected with no state change. -/
theorem C6_vote_in_bounds_out_of_bounds_witness :
    voteHandler (some wPoll) (some 99) =
      (VoteResult.badRequest, some wPoll, [StoreOp.getOp]) ∧
    (voteHandler (some wPoll) (some 1)).1 = VoteResult.ok := by
  refine ⟨(C6_vote_in_bounds_out_of_bounds wPoll 99).2 (Or.inr (by decide)), ?_⟩
  obtain ⟨p', hp', -⟩ := (C6_vote_in_bounds_out_of_bounds wPoll 1).1 (by decide) (by decide)
  rw [hp']

/-- C7: DELETE /poll/user-dates/:userName with a case-insensitive match
removes exactly the matched entry (the list becomes the part before it
plus the part after it) and persists; with no match it answers a not-found
error and the stored state is unchanged. -/
theorem C7_delete_exactly_one_or_not_found (poll : PollDocument) (u : String)
    (hu : u ≠ "") :
    (∀ i, findIndex (userMatches u) poll.userVotes = some i →
      (∃ v, poll.userVotes[i]? = some v ∧ userMatches u v = true) ∧
      deleteUserDates (some poll) u =
        (DeleteResult.ok,
         some { poll with
           userVotes := poll.userVotes.take i ++ poll.userVotes.drop (i + 1) },
         [StoreOp.getOp,
          StoreOp.setOp { poll with
            userVotes := poll.userVotes.take i ++ poll.userVotes.drop (i + 1) }])) ∧
    (findIndex (userMatches u) poll.userVotes = none →
      deleteUserDates (some poll) u =
        (DeleteResult.notFoundUser, some poll, [StoreOp.getOp])) := by
  constructor
  · intro i hfi
    refine ⟨findIndex_some hfi, ?_⟩
    rw [← removeAt_eq_take_append_drop]
    simp [deleteUserDates, hu, hfi]
  · intro hfi
    simp [deleteUserDates, hu, hfi]

/-- C7 witness: deleting "BOB" removes Bob's entry from `wPoll` and
persists; deleting "Zoe" answers not-found and changes nothing. -/
theorem C7_delete_exactly_one_or_not_found_witness :
    deleteUserDates (some wPoll) "BOB" =
      (DeleteResult.ok,
       some { wPoll with userVotes := [⟨"1", "Alice", ["2024-04-05"]⟩] },
       [StoreOp.getOp,
        StoreOp.setOp { wPoll with userVotes := [⟨"1", "Alice", ["2024-04-05"]⟩] }]) ∧
    deleteUserDates (some wPoll) "Zoe" =
      (DeleteResult.notFoundUser, some wPoll, [StoreOp.getOp]) := by
  refine ⟨?_, (C7_delete_exactly_one_or_not_found wPoll "Zoe" (by decide)).2 (by decide)⟩
  have h := ((C7_delete_exactly_one_or_not_found wPoll "BOB" (by decide)).1 1 (by decide)).2
  exact h.trans (by decide)

end Schedj
